import Mathlib

/-!
Verification development for the segment sync coordination and checkpoint
advancement subsystem of a storage-node component (sync manager and
tick-driven checkpoint trigger).

The Go code is shallowly embedded: the in-flight task registry becomes an
association list, the sync manager's methods become pure functions over an
explicit state, and the tick-trigger pipeline stage becomes a function from
its inputs (message, write-buffer answer, clock) to its outputs (downstream
messages, checkpoint-update requests, log events).
-/

namespace Milvus

/-- A message position: durability marker scoped to one channel, carrying a
timestamp and an opaque sub-position blob (`MsgID`). Mirrors
`msgpb.MsgPosition`. -/
structure MsgPosition where
  channelName : String
  msgID : List Nat
  timestamp : Nat
deriving DecidableEq, Repr

/-- Go protobuf getter semantics: `GetTimestamp` on a nil position returns 0. -/
def getTimestamp : Option MsgPosition → Nat
  | none => 0
  | some p => p.timestamp

/-- A sync task as seen by the sync manager: the capability surface used by
`SyncData` and `GetEarliestPosition` (`SegmentID`, `ChannelName`,
`StartPosition`, `Checkpoint`). -/
structure Task where
  segmentID : Int
  channelName : String
  startPosition : Option MsgPosition
  checkpoint : Option MsgPosition
deriving DecidableEq, Repr

/-- Association-list lookup, modelling a read of the concurrent map. -/
def alistGet {α : Type} (m : List (String × α)) (k : String) : Option α :=
  match m with
  | [] => none
  | (k2, v) :: rest => if k2 = k then some v else alistGet rest k

/-- Association-list insert-or-overwrite, modelling
`ConcurrentMap.Insert` (which stores unconditionally). -/
def alistInsert {α : Type} (m : List (String × α)) (k : String) (v : α) :
    List (String × α) :=
  match m with
  | [] => [(k, v)]
  | (k2, v2) :: rest =>
    if k2 = k then (k, v) :: rest else (k2, v2) :: alistInsert rest k v

theorem alistGet_alistInsert_self {α : Type} (m : List (String × α)) (k : String)
    (v : α) : alistGet (alistInsert m k v) k = some v := by
  induction m with
  | nil => simp [alistInsert, alistGet]
  | cons hd tl ih =>
    obtain ⟨k2, v2⟩ := hd
    by_cases h : k2 = k
    · simp [alistInsert, alistGet, h]
    · simp [alistInsert, alistGet, h, ih]

theorem alistGet_alistInsert_ne {α : Type} (m : List (String × α)) (k k' : String)
    (v : α) (h : k' ≠ k) : alistGet (alistInsert m k v) k' = alistGet m k' := by
  have hk : ¬k = k' := fun h2 => h h2.symm
  induction m with
  | nil => simp [alistInsert, alistGet, hk]
  | cons hd tl ih =>
    obtain ⟨k2, v2⟩ := hd
    by_cases h2 : k2 = k
    · subst h2
      simp [alistInsert, alistGet, hk]
    · simp only [alistInsert, if_neg h2]
      by_cases h3 : k2 = k'
      · simp [alistGet, h3]
      · simp [alistGet, h3, ih]

/-- One step of the registry scan in `GetEarliestPosition`: skip tasks with a
nil start position, and among tasks on the requested channel keep the one
with the strictly smaller start-position timestamp. -/
def epStep (channel : String) (acc : Int × Option MsgPosition) (task : Task) :
    Int × Option MsgPosition :=
  match task.startPosition with
  | none => acc
  | some sp =>
    if task.channelName = channel then
      match acc.2 with
      | none => (task.segmentID, some sp)
      | some cp =>
        if sp.timestamp < cp.timestamp then (task.segmentID, some sp) else acc
    else acc

/-- `syncManager.GetEarliestPosition`: scan the in-flight registry (values
only; keys are ignored by the scan) starting from `(0, nil)`. -/
def GetEarliestPosition (tasks : List Task) (channel : String) :
    Int × Option MsgPosition :=
  tasks.foldl (epStep channel) (0, none)

/-- Invariant carried through the registry scan: the accumulator describes
exactly the processed prefix. -/
def EpInv (channel : String) (processed : List Task)
    (acc : Int × Option MsgPosition) : Prop :=
  match acc.2 with
  | none => ∀ t ∈ processed, t.channelName = channel → t.startPosition = none
  | some p =>
    (∃ t ∈ processed, t.channelName = channel ∧ t.segmentID = acc.1 ∧
      t.startPosition = some p) ∧
    ∀ t ∈ processed, t.channelName = channel →
      ∀ sp, t.startPosition = some sp → p.timestamp ≤ sp.timestamp

theorem epStep_inv (channel : String) (processed : List Task)
    (acc : Int × Option MsgPosition) (t : Task)
    (h : EpInv channel processed acc) :
    EpInv channel (processed ++ [t]) (epStep channel acc t) := by
  rcases ht : t.startPosition with _ | sp
  · -- nil start position: accumulator unchanged, the new task contributes nothing
    simp only [epStep, ht]
    rcases hacc : acc.2 with _ | p
    · simp only [EpInv, hacc] at h ⊢
      intro u hu hc
      rcases List.mem_append.mp hu with hu | hu
      · exact h u hu hc
      · simp only [List.mem_singleton] at hu
        subst hu; exact ht
    · simp only [EpInv, hacc] at h ⊢
      refine ⟨⟨h.1.choose, List.mem_append.mpr (Or.inl h.1.choose_spec.1),
        h.1.choose_spec.2⟩, ?_⟩
      intro u hu hc sp2 hsp2
      rcases List.mem_append.mp hu with hu | hu
      · exact h.2 u hu hc sp2 hsp2
      · simp only [List.mem_singleton] at hu
        subst hu; rw [ht] at hsp2; cases hsp2
  · by_cases hc : t.channelName = channel
    · rcases hacc : acc.2 with _ | p
      · -- first matching task
        simp only [epStep, ht, if_pos hc, hacc, EpInv]
        simp only [EpInv, hacc] at h
        refine ⟨⟨t, List.mem_append.mpr (Or.inr (List.mem_singleton.mpr rfl)),
          hc, rfl, ht⟩, ?_⟩
        intro u hu hcu sp2 hsp2
        rcases List.mem_append.mp hu with hu | hu
        · rw [h u hu hcu] at hsp2; cases hsp2
        · simp only [List.mem_singleton] at hu
          subst hu; rw [ht] at hsp2
          cases hsp2; exact le_refl _
      · simp only [EpInv, hacc] at h
        by_cases hlt : sp.timestamp < p.timestamp
        · -- strictly earlier: take the new task
          simp only [epStep, ht, if_pos hc, hacc, if_pos hlt, EpInv]
          refine ⟨⟨t, List.mem_append.mpr (Or.inr (List.mem_singleton.mpr rfl)),
            hc, rfl, ht⟩, ?_⟩
          intro u hu hcu sp2 hsp2
          rcases List.mem_append.mp hu with hu | hu
          · exact le_trans (le_of_lt hlt) (h.2 u hu hcu sp2 hsp2)
          · simp only [List.mem_singleton] at hu
            subst hu; rw [ht] at hsp2
            cases hsp2; exact le_refl _
        · -- not earlier: keep the accumulator
          have heq : epStep channel acc t = acc := by
            simp [epStep, ht, if_pos hc, hacc, if_neg hlt]
          rw [heq]
          simp only [EpInv, hacc]
          refine ⟨⟨h.1.choose, List.mem_append.mpr (Or.inl h.1.choose_spec.1),
            h.1.choose_spec.2⟩, ?_⟩
          intro u hu hcu sp2 hsp2
          rcases List.mem_append.mp hu with hu | hu
          · exact h.2 u hu hcu sp2 hsp2
          · simp only [List.mem_singleton] at hu
            subst hu; rw [ht] at hsp2
            cases hsp2; exact le_of_not_lt hlt
    · -- other channel: accumulator unchanged
      have heq : epStep channel acc t = acc := by
        simp [epStep, ht, if_neg hc]
      rw [heq]
      rcases hacc : acc.2 with _ | p
      · simp only [EpInv, hacc] at h ⊢
        intro u hu hcu
        rcases List.mem_append.mp hu with hu | hu
        · exact h u hu hcu
        · simp only [List.mem_singleton] at hu
          subst hu; exact absurd hcu hc
      · simp only [EpInv, hacc] at h ⊢
        refine ⟨⟨h.1.choose, List.mem_append.mpr (Or.inl h.1.choose_spec.1),
          h.1.choose_spec.2⟩, ?_⟩
        intro u hu hcu sp2 hsp2
        rcases List.mem_append.mp hu with hu | hu
        · exact h.2 u hu hcu sp2 hsp2
        · simp only [List.mem_singleton] at hu
          subst hu; exact absurd hcu hc

theorem foldl_epStep_inv (channel : String) (rest processed : List Task)
    (acc : Int × Option MsgPosition) (h : EpInv channel processed acc) :
    EpInv channel (processed ++ rest) (rest.foldl (epStep channel) acc) := by
  induction rest generalizing processed acc with
  | nil => simpa using h
  | cons t ts ih =>
    have h2 := epStep_inv channel processed acc t h
    have h3 := ih (processed ++ [t]) (epStep channel acc t) h2
    simpa [List.append_assoc] using h3

theorem getEarliestPosition_inv (tasks : List Task) (channel : String) :
    EpInv channel tasks (GetEarliestPosition tasks channel) := by
  have h := foldl_epStep_inv channel tasks [] (0, none) (by
    simp [EpInv])
  simpa using h

/-- Concrete tasks used to instantiate the general theorems. -/
def posA : MsgPosition := ⟨"ch1", [1], 100⟩

def posB : MsgPosition := ⟨"ch1", [2], 50⟩

def taskA : Task := ⟨7, "ch1", some posA, some ⟨"ch1", [], 120⟩⟩

def taskB : Task := ⟨8, "ch1", some posB, some ⟨"ch1", [], 60⟩⟩

def taskC : Task := ⟨9, "ch2", some ⟨"ch2", [], 10⟩, none⟩

def taskN : Task := ⟨10, "ch1", none, none⟩

/-- Claim C1: `GetEarliestPosition(c)` scans the in-flight registry and
returns the segment id and start position of the in-flight task on channel
`c` with the minimum start-position timestamp; it returns a nil position
when no task for channel `c` is in flight; and the returned position's
timestamp is never greater than the start-position timestamp of any
in-flight task on `c`. -/
theorem getEarliestPosition_min_start (tasks : List Task) (c : String) :
    ((∀ t ∈ tasks, t.channelName ≠ c) → (GetEarliestPosition tasks c).2 = none)
    ∧ (∀ sid p, GetEarliestPosition tasks c = (sid, some p) →
        (∃ t ∈ tasks, t.channelName = c ∧ t.segmentID = sid ∧
          t.startPosition = some p) ∧
        ∀ t ∈ tasks, t.channelName = c → ∀ sp, t.startPosition = some sp →
          p.timestamp ≤ sp.timestamp)
    ∧ ((∃ t ∈ tasks, t.channelName = c ∧ t.startPosition ≠ none) →
        (GetEarliestPosition tasks c).2 ≠ none) := by
  have hinv := getEarliestPosition_inv tasks c
  rcases hres : GetEarliestPosition tasks c with ⟨sid0, cp0⟩
  rw [hres] at hinv
  rcases cp0 with _ | p0
  · simp only [EpInv] at hinv
    refine ⟨fun _ => rfl, ?_, ?_⟩
    · intro sid p h
      simp at h
    · rintro ⟨t, ht, hc, hsp⟩
      exact absurd (hinv t ht hc) hsp
  · simp only [EpInv] at hinv
    refine ⟨?_, ?_, fun _ => by simp⟩
    · intro hno
      obtain ⟨t, ht, hc, -⟩ := hinv.1
      exact absurd hc (hno t ht)
    · intro sid p h
      injection h with h1 h2
      injection h2 with h2
      subst h1; subst h2
      exact hinv

/-- Witness for C1 at a concrete registry: the scan returns segment 8 with
the timestamp-50 start position, which is below taskA's timestamp-100 start
position. -/
theorem getEarliestPosition_min_start_instance :
    GetEarliestPosition [taskA, taskB, taskC, taskN] "ch1" = (8, some posB) ∧
    posB.timestamp ≤ posA.timestamp := by
  refine ⟨by decide, ?_⟩
  have h := (getEarliestPosition_min_start [taskA, taskB, taskC, taskN]
    "ch1").2.1 8 posB (by decide)
  exact h.2 taskA (by decide) rfl posA rfl

theorem foldl_epStep_filter (c : String) (tasks : List Task) :
    ∀ acc, tasks.foldl (epStep c) acc =
      (tasks.filter (fun t => t.startPosition.isSome)).foldl (epStep c) acc := by
  induction tasks with
  | nil => intro _; rfl
  | cons t ts ih =>
    intro acc
    rcases ht : t.startPosition with _ | sp
    · have hstep : epStep c acc t = acc := by simp [epStep, ht]
      rw [List.foldl_cons, hstep, List.filter_cons, ht]
      simpa using ih acc
    · rw [List.foldl_cons, List.filter_cons, ht]
      simpa using ih (epStep c acc t)

theorem foldl_epStep_all_nil (c : String) (tasks : List Task)
    (h : ∀ t ∈ tasks, t.channelName = c → t.startPosition = none) :
    tasks.foldl (epStep c) (0, none) = ((0 : Int), (none : Option MsgPosition)) := by
  induction tasks with
  | nil => rfl
  | cons t ts ih =>
    have hstep : epStep c ((0 : Int), (none : Option MsgPosition)) t
        = ((0 : Int), (none : Option MsgPosition)) := by
      rcases ht : t.startPosition with _ | sp
      · simp [epStep, ht]
      · by_cases hc : t.channelName = c
        · have := h t (List.mem_cons_self t ts) hc
          rw [ht] at this; cases this
        · simp [epStep, ht, hc]
    rw [List.foldl_cons, hstep]
    exact ih (fun u hu => h u (List.mem_cons_of_mem t hu))

/-- Claim C10: `GetEarliestPosition` depends only on in-flight tasks with a
non-nil start position — removing every nil-start task from the registry
does not change the result — and if every task on channel `c` has a nil
start position the call returns `(0, nil)`, exactly as for an empty
registry. -/
theorem getEarliestPosition_ignores_nil_start (tasks : List Task) (c : String) :
    GetEarliestPosition tasks c =
      GetEarliestPosition (tasks.filter (fun t => t.startPosition.isSome)) c
    ∧ ((∀ t ∈ tasks, t.channelName = c → t.startPosition = none) →
        GetEarliestPosition tasks c = GetEarliestPosition [] c ∧
        GetEarliestPosition tasks c = (0, none)) := by
  refine ⟨foldl_epStep_filter c tasks (0, none), fun h => ?_⟩
  have h2 := foldl_epStep_all_nil c tasks h
  exact ⟨h2, h2⟩

/-- Witness for C10: a registry whose only `ch1` task has a nil start
position yields `(0, nil)`, as for the empty registry. -/
theorem getEarliestPosition_ignores_nil_start_instance :
    GetEarliestPosition [taskN, taskC] "ch1" = GetEarliestPosition [] "ch1" ∧
    GetEarliestPosition [taskN, taskC] "ch1" = (0, none) :=
  (getEarliestPosition_ignores_nil_start [taskN, taskC] "ch1").2 (by decide)

/-- Error value mirroring `merr.WrapErrParameterInvalid(expected, actual)`. -/
inductive MerrError where
  | parameterInvalid (expected actual : String)
deriving DecidableEq, Repr

/-- The sync manager's state: the dispatcher's parallelism and the in-flight
task registry (`ConcurrentMap[string, Task]` as an association list). -/
structure SyncManagerState where
  parallelTask : Int
  tasks : List (String × Task)
deriving DecidableEq, Repr

/-- `NewSyncManager`: rejects a parallelism below 1 with a parameter-invalid
error, otherwise builds a manager with an empty registry. -/
def NewSyncManager (parallelTask : Int) : Except MerrError SyncManagerState :=
  if parallelTask < 1 then
    .error (.parameterInvalid "positive parallel task number" (toString parallelTask))
  else
    .ok { parallelTask := parallelTask, tasks := [] }

/-- Claim C4: `NewSyncManager(p)` with `p < 1` returns no manager and a
parameter-invalid error synchronously, and with `p ≥ 1` returns a manager
and no error. -/
theorem NewSyncManager_parallel_validation (p : Int) :
    (p < 1 → NewSyncManager p =
      .error (.parameterInvalid "positive parallel task number" (toString p)))
    ∧ (1 ≤ p → NewSyncManager p = .ok { parallelTask := p, tasks := [] }) := by
  constructor
  · intro h; simp [NewSyncManager, h]
  · intro h; simp [NewSyncManager, not_lt.mpr h]

/-- Witness for C4 at `p = 0` and `p = 1`. -/
theorem NewSyncManager_parallel_validation_instance :
    NewSyncManager 0 =
      .error (.parameterInvalid "positive parallel task number" (toString (0 : Int)))
    ∧ NewSyncManager 1 = .ok { parallelTask := 1, tasks := [] } :=
  ⟨(NewSyncManager_parallel_validation 0).1 (by decide),
   (NewSyncManager_parallel_validation 1).2 (by decide)⟩

/-- The registry key used by `SyncData`:
`fmt.Sprintf("%d-%d", task.SegmentID(), task.Checkpoint().GetTimestamp())`. -/
def taskKey (t : Task) : String :=
  toString t.segmentID ++ "-" ++ toString (getTimestamp t.checkpoint)

/-- What one `SyncData` call does synchronously: the new manager state, the
segment id handed to the key-lock dispatcher's `Submit`, and the synchronous
error (the Go method has no synchronous error path: it always returns the
future from `Submit`). -/
structure SyncDataResult where
  state : SyncManagerState
  submittedSegment : Option Int
  syncError : Option MerrError
deriving DecidableEq, Repr

/-- `syncManager.SyncData`: unconditionally inserts the task into the
registry under its key (overwriting any entry already there) and submits it
to the dispatcher keyed by its segment id. -/
def SyncData (st : SyncManagerState) (task : Task) : SyncDataResult :=
  { state := { st with tasks := alistInsert st.tasks (taskKey task) task },
    submittedSegment := some task.segmentID,
    syncError := none }

/-- A task with the same key ("7-120") as `taskA` but different contents. -/
def taskDup : Task := ⟨7, "ch1", some posB, some ⟨"ch1", [3], 120⟩⟩

/-- A manager state whose registry already holds the key of `taskDup`. -/
def stDup : SyncManagerState := ⟨2, [(taskKey taskA, taskA)]⟩

/-- Counterexample to C5: the key of `taskDup` is already in flight in
`stDup`, yet `SyncData` raises no synchronous error and still submits the
task — the duplicate is not rejected; the registry entry is overwritten. -/
theorem syncData_duplicate_key_not_rejected :
    alistGet stDup.tasks (taskKey taskDup) ≠ none ∧
    (SyncData stDup taskDup).syncError = none ∧
    (SyncData stDup taskDup).submittedSegment = some 7 ∧
    alistGet (SyncData stDup taskDup).state.tasks (taskKey taskDup) =
      some taskDup := by
  refine ⟨by decide, rfl, rfl, by decide⟩

/-- Claim C5 (amended): submitting a task whose key equals one already in
the registry is not rejected: `SyncData` returns no synchronous error,
still submits the task to the dispatcher, and overwrites the registry entry
for that key. -/
theorem syncData_duplicate_key_overwrites (st : SyncManagerState) (task : Task)
    (h : alistGet st.tasks (taskKey task) ≠ none) :
    (SyncData st task).syncError = none ∧
    (SyncData st task).submittedSegment = some task.segmentID ∧
    alistGet (SyncData st task).state.tasks (taskKey task) = some task :=
  ⟨rfl, rfl, alistGet_alistInsert_self st.tasks (taskKey task) task⟩

/-- Witness for the amended C5 at the concrete duplicate submission. -/
theorem syncData_duplicate_key_overwrites_instance :
    (SyncData stDup taskDup).syncError = none ∧
    (SyncData stDup taskDup).submittedSegment = some taskDup.segmentID ∧
    alistGet (SyncData stDup taskDup).state.tasks (taskKey taskDup) =
      some taskDup :=
  syncData_duplicate_key_overwrites stDup taskDup (by decide)

/-- State of the checkpoint updater: the last successfully published
position timestamp per channel, and the log of every call made to the
durable `publish(channel, position)` operation, oldest first. -/
structure ChannelCPState where
  lastPublished : List (String × Nat)
  publishLog : List (String × Nat)
deriving DecidableEq, Repr

/-- Modelled from the spec: `channelCheckpointUpdater.updateChannelCP` is
not in the sources (only its caller `ttNode.updateChannelCP` is).
Per the spec's CheckpointUpdater contract: if the position is not newer (by
timestamp) than the last published position for the channel, the call is a
no-op; otherwise the position is published durably and recorded as the
channel's last published position. The returned flag tells whether the
success callback runs. -/
def cpUpdate (st : ChannelCPState) (channel : String) (ts : Nat) :
    ChannelCPState × Bool :=
  match alistGet st.lastPublished channel with
  | some last =>
    if ts ≤ last then (st, false)
    else ({ lastPublished := alistInsert st.lastPublished channel ts,
            publishLog := st.publishLog ++ [(channel, ts)] }, true)
  | none =>
    ({ lastPublished := alistInsert st.lastPublished channel ts,
       publishLog := st.publishLog ++ [(channel, ts)] }, true)

/-- Run a sequence of checkpoint-update calls. -/
def runUpdates (st : ChannelCPState) : List (String × Nat) → ChannelCPState
  | [] => st
  | (c, ts) :: rest => runUpdates (cpUpdate st c ts).1 rest

/-- The timestamps passed to `publish` for one channel, oldest first. -/
def channelLog (st : ChannelCPState) (c : String) : List Nat :=
  st.publishLog.filterMap (fun p => if p.1 = c then some p.2 else none)

/-- The updater invariant: each channel's publish log is non-decreasing and
bounded by the channel's recorded last-published timestamp. -/
def CPInv (st : ChannelCPState) : Prop :=
  ∀ c, List.Chain' (· ≤ ·) (channelLog st c) ∧
    ∀ t ∈ channelLog st c, ∃ l, alistGet st.lastPublished c = some l ∧ t ≤ l

theorem cpUpdate_inv (st : ChannelCPState) (channel : String) (ts : Nat)
    (h : CPInv st) : CPInv (cpUpdate st channel ts).1 := by
  rcases hlast : alistGet st.lastPublished channel with _ | last
  · -- first publication on this channel
    intro c
    simp only [cpUpdate, hlast]
    by_cases hc : c = channel
    · subst hc
      have hempty : channelLog st c = [] := by
        rcases hlog : channelLog st c with _ | ⟨t, rest⟩
        · rfl
        · obtain ⟨l, hl, -⟩ := (h c).2 t (by rw [hlog]; exact List.mem_cons_self t rest)
          rw [hlast] at hl; cases hl
      have hlog2 : channelLog ⟨alistInsert st.lastPublished c ts,
          st.publishLog ++ [(c, ts)]⟩ c = channelLog st c ++ [ts] := by
        simp [channelLog, List.filterMap_append]
      refine ⟨?_, ?_⟩
      · rw [hlog2, hempty]; exact List.chain'_singleton ts
      · intro t ht
        rw [hlog2, hempty] at ht
        simp only [List.nil_append, List.mem_singleton] at ht
        exact ⟨ts, alistGet_alistInsert_self _ _ _, ht.le⟩
    · have hcs : ¬channel = c := fun h2 => hc h2.symm
      have hlog2 : channelLog ⟨alistInsert st.lastPublished channel ts,
          st.publishLog ++ [(channel, ts)]⟩ c = channelLog st c := by
        simp [channelLog, List.filterMap_append, hcs]
      refine ⟨by rw [hlog2]; exact (h c).1, ?_⟩
      intro t ht
      rw [hlog2] at ht
      obtain ⟨l, hl, hle⟩ := (h c).2 t ht
      exact ⟨l, by rw [alistGet_alistInsert_ne _ _ _ _ hc]; exact hl, hle⟩
  · by_cases hle : ts ≤ last
    · -- stale position: no-op
      simp only [cpUpdate, hlast, if_pos hle]
      exact h
    · -- newer position: publish and advance
      simp only [cpUpdate, hlast, if_neg hle]
      intro c
      by_cases hc : c = channel
      · subst hc
        have hlog2 : channelLog ⟨alistInsert st.lastPublished c ts,
            st.publishLog ++ [(c, ts)]⟩ c = channelLog st c ++ [ts] := by
          simp [channelLog, List.filterMap_append]
        refine ⟨?_, ?_⟩
        · rw [hlog2]
          rw [List.chain'_append]
          refine ⟨(h c).1, List.chain'_singleton ts, ?_⟩
          intro x hx y hy
          simp only [List.head?_cons, Option.mem_def, Option.some.injEq] at hy
          subst hy
          obtain ⟨hne, hxeq⟩ := List.mem_getLast?_eq_getLast hx
          have hxmem : x ∈ channelLog st c := hxeq ▸ List.getLast_mem hne
          obtain ⟨l, hl, hxl⟩ := (h c).2 x hxmem
          rw [hlast] at hl
          injection hl with hl
          subst hl
          exact le_trans hxl (le_of_not_le hle)
        · intro t ht
          rw [hlog2] at ht
          rcases List.mem_append.mp ht with ht | ht
          · obtain ⟨l, hl, hxl⟩ := (h c).2 t ht
            rw [hlast] at hl
            injection hl with hl
            subst hl
            exact ⟨ts, alistGet_alistInsert_self _ _ _,
              le_trans hxl (le_of_not_le hle)⟩
          · simp only [List.mem_singleton] at ht
            exact ⟨ts, alistGet_alistInsert_self _ _ _, ht.le⟩
      · have hcs : ¬channel = c := fun h2 => hc h2.symm
        have hlog2 : channelLog ⟨alistInsert st.lastPublished channel ts,
            st.publishLog ++ [(channel, ts)]⟩ c = channelLog st c := by
          simp [channelLog, List.filterMap_append, hcs]
        refine ⟨by rw [hlog2]; exact (h c).1, ?_⟩
        intro t ht
        rw [hlog2] at ht
        obtain ⟨l, hl, hle2⟩ := (h c).2 t ht
        exact ⟨l, by rw [alistGet_alistInsert_ne _ _ _ _ hc]; exact hl, hle2⟩

theorem runUpdates_inv (calls : List (String × Nat)) (st : ChannelCPState)
    (h : CPInv st) : CPInv (runUpdates st calls) := by
  induction calls generalizing st with
  | nil => exact h
  | cons call rest ih =>
    obtain ⟨c, ts⟩ := call
    exact ih (cpUpdate st c ts).1 (cpUpdate_inv st c ts h)

/-- The updater's initial state: nothing published yet. -/
def cpInit : ChannelCPState := ⟨[], []⟩

/-- Claim C2: the per-channel published checkpoint is monotonically
non-decreasing — an update whose position is not newer (by timestamp) than
the channel's last published position is a no-op, and for every channel the
sequence of positions passed to the durable publish operation is
non-decreasing in timestamp. -/
theorem cpUpdater_publish_monotone :
    (∀ calls c, List.Chain' (· ≤ ·) (channelLog (runUpdates cpInit calls) c))
    ∧ (∀ st c ts last, alistGet st.lastPublished c = some last → ts ≤ last →
        cpUpdate st c ts = (st, false)) := by
  constructor
  · intro calls c
    have h0 : CPInv cpInit := by
      intro c2
      refine ⟨List.chain'_nil, ?_⟩
      intro t ht
      simp [channelLog, cpInit] at ht
    exact (runUpdates_inv calls cpInit h0 c).1
  · intro st c ts last hlast hle
    simp [cpUpdate, hlast, hle]

/-- Witness for C2: out-of-order updates (5, then stale 3, then 9) publish
only [5, 9] for the channel, and the stale update is a no-op. -/
theorem cpUpdater_publish_monotone_instance :
    List.Chain' (· ≤ ·)
      (channelLog (runUpdates cpInit [("ch1", 5), ("ch1", 3), ("ch1", 9)]) "ch1")
    ∧ cpUpdate ⟨[("ch1", 5)], [("ch1", 5)]⟩ "ch1" 3 =
        (⟨[("ch1", 5)], [("ch1", 5)]⟩, false) :=
  ⟨cpUpdater_publish_monotone.1 [("ch1", 5), ("ch1", 3), ("ch1", 9)] "ch1",
   cpUpdater_publish_monotone.2 ⟨[("ch1", 5)], [("ch1", 5)]⟩ "ch1" 3 5
     (by decide) (by decide)⟩

/-- A unit of work submitted to the key-lock dispatcher: its segment id and
a tag distinguishing distinct submissions. -/
structure DispTask where
  segmentID : Int
  taskID : Nat
deriving DecidableEq, Repr

/-- State of the key-lock dispatcher and its worker pool: tasks submitted
but not started, tasks currently executing (each holding its segment's
lock), finished tasks, and segments locked externally via `Block`. -/
structure DispState where
  pending : List DispTask
  running : List DispTask
  finished : List DispTask
  blocked : List Int
deriving DecidableEq, Repr

/-- Segments whose lock is currently held — by a running task or by an
external `Block` — in the one shared lock space. -/
def heldSegments (st : DispState) : List Int :=
  st.running.map (·.segmentID) ++ st.blocked

/-- Modelled from the spec: `keyLockDispatcher.Submit` and the `keyLock` it
uses are not in the sources (only callers `SyncData`, `Block`, `Unblock`
are). Per the spec: submission enqueues the task; a worker may start a task
only after acquiring the exclusion for the task's segment id, with the pool
bounded by `parallelTask`; completion releases the exclusion; `Block` /
`Unblock` take and release the same per-segment exclusion. -/
inductive DispStep (p : Nat) : DispState → DispState → Prop where
  | submit (t : DispTask) (st : DispState) :
      DispStep p st { st with pending := t :: st.pending }
  | start (t : DispTask) (st : DispState) (hmem : t ∈ st.pending)
      (hfree : t.segmentID ∉ heldSegments st)
      (hcap : st.running.length < p) :
      DispStep p st { pending := st.pending.erase t,
                      running := t :: st.running,
                      finished := st.finished,
                      blocked := st.blocked }
  | finish (t : DispTask) (st : DispState) (hmem : t ∈ st.running) :
      DispStep p st { pending := st.pending,
                      running := st.running.erase t,
                      finished := t :: st.finished,
                      blocked := st.blocked }
  | block (s : Int) (st : DispState) (hfree : s ∉ heldSegments st) :
      DispStep p st { st with blocked := s :: st.blocked }
  | unblock (s : Int) (st : DispState) :
      DispStep p st { st with blocked := st.blocked.erase s }

/-- The dispatcher's initial state. -/
def dispInit : DispState := ⟨[], [], [], []⟩

/-- The tasks currently executing on segment `s`. -/
def runningOn (st : DispState) (s : Int) : List DispTask :=
  st.running.filter (fun t => t.segmentID == s)

theorem runningOn_le_of_sublist (l l2 : List DispTask) (s : Int)
    (h : l2.Sublist l) :
    (l2.filter (fun t => t.segmentID == s)).length
      ≤ (l.filter (fun t => t.segmentID == s)).length :=
  (h.filter _).length_le

theorem dispStep_inv (p : Nat) (st st2 : DispState)
    (hstep : DispStep p st st2)
    (h : (∀ s, (runningOn st s).length ≤ 1) ∧ st.running.length ≤ p) :
    (∀ s, (runningOn st2 s).length ≤ 1) ∧ st2.running.length ≤ p := by
  cases hstep with
  | submit t st => exact h
  | start t st hmem hfree hcap =>
    constructor
    · intro s
      simp only [runningOn, List.filter_cons]
      by_cases hs : t.segmentID == s
      · have hseq : t.segmentID = s := by simpa using hs
        subst hseq
        have hnone : st.running.filter (fun u => u.segmentID == t.segmentID) = [] := by
          rw [List.filter_eq_nil_iff]
          intro u hu
          simp only [beq_iff_eq]
          intro heq
          exact hfree (List.mem_append.mpr (Or.inl
            (List.mem_map.mpr ⟨u, hu, heq⟩)))
        simp [hs, runningOn, hnone]
      · simp only [hs]
        exact h.1 s
    · simpa using hcap
  | finish t st hmem =>
    constructor
    · intro s
      exact le_trans
        (runningOn_le_of_sublist st.running (st.running.erase t) s
          (List.erase_sublist t st.running)) (h.1 s)
    · exact le_trans (List.erase_sublist t st.running).length_le h.2
  | block s st hfree => exact h
  | unblock s st => exact h

/-- Claim C3: in every dispatcher state reachable from the initial state, at
most one task per segment is executing (segment-local serialization), while
the number of concurrently executing tasks across segments is bounded only
by the pool's parallelism limit `p`. -/
theorem dispatcher_segment_exclusive (p : Nat) (st : DispState)
    (h : Relation.ReflTransGen (DispStep p) dispInit st) :
    (∀ s, (runningOn st s).length ≤ 1) ∧ st.running.length ≤ p := by
  induction h with
  | refl =>
    constructor
    · intro s; simp [runningOn, dispInit]
    · simp [dispInit]
  | tail hsteps hstep ih => exact dispStep_inv p _ _ hstep ih

/-- Witness for C3: after submitting and starting one task for segment 7 in
a two-worker pool, exactly that one task runs on segment 7. -/
theorem dispatcher_segment_exclusive_instance :
    (runningOn ⟨[], [⟨7, 0⟩], [], []⟩ 7).length ≤ 1 ∧
    (DispState.running ⟨[], [⟨7, 0⟩], [], []⟩).length ≤ 2 := by
  have h1 : DispStep 2 dispInit ⟨[⟨7, 0⟩], [], [], []⟩ :=
    DispStep.submit ⟨7, 0⟩ dispInit
  have h2 : DispStep 2 ⟨[⟨7, 0⟩], [], [], []⟩ ⟨[], [⟨7, 0⟩], [], []⟩ := by
    have h3 := DispStep.start (p := 2) ⟨7, 0⟩ ⟨[⟨7, 0⟩], [], [], []⟩
      (by decide) (by decide) (by decide)
    simpa using h3
  have hreach : Relation.ReflTransGen (DispStep 2) dispInit ⟨[], [⟨7, 0⟩], [], []⟩ :=
    Relation.ReflTransGen.tail (Relation.ReflTransGen.single h1) h2
  have h := dispatcher_segment_exclusive 2 ⟨[], [⟨7, 0⟩], [], []⟩ hreach
  exact ⟨h.1 7, h.2⟩

/-- The time range carried by a flow-graph batch-boundary message. -/
structure TimeRange where
  timestampMin : Nat
  timestampMax : Nat
deriving DecidableEq, Repr

/-- The flow-graph message consumed by the tick-trigger stage: the batch's
time range, the end positions on close, and the close flag. -/
structure FlowGraphMsg where
  timeRange : TimeRange
  endPositions : List MsgPosition
  isClose : Bool
deriving DecidableEq, Repr

/-- `fgMsg.IsCloseMsg()`. -/
def IsCloseMsg (m : FlowGraphMsg) : Bool := m.isClose

/-- `tsoutil.ParseTS`: the physical wall-clock part of a hybrid timestamp,
obtained by dropping the 18 logical bits. -/
def parseTS (ts : Nat) : Int := ((ts >>> 18 : Nat) : Int)

/-- The tick-trigger node's mutable state: its channel and the
`lastUpdateTime` atomic. -/
structure TTNodeState where
  vChannelName : String
  lastUpdateTime : Int
deriving DecidableEq, Repr

/-- A checkpoint-update request handed to the checkpoint updater: the
position to publish and the `curTs` the success callback closes over. -/
structure CPCall where
  pos : MsgPosition
  curTs : Int
deriving DecidableEq, Repr

/-- `ttNode.updateChannelCP`: builds the request forwarded to the
checkpoint updater together with its success callback. -/
def updateChannelCP (channelPos : MsgPosition) (curTs : Int) : CPCall :=
  ⟨channelPos, curTs⟩

/-- The success callback built inside `ttNode.updateChannelCP`: stores
`curTs` into `lastUpdateTime` and notifies the write-buffer manager with
the channel name and the published timestamp. -/
def updateChannelCPCallback (call : CPCall) (st : TTNodeState) :
    TTNodeState × (String × Nat) :=
  ({ st with lastUpdateTime := call.curTs }, (st.vChannelName, call.pos.timestamp))

/-- What one `Operate` call produces: the downstream messages, the
checkpoint-update request issued (if any), and whether the
channel-removed condition was logged. -/
structure OperateResult where
  output : List FlowGraphMsg
  update : Option CPCall
  loggedChannelRemoved : Bool
deriving DecidableEq, Repr

/-- `ttNode.Operate`. `wb` is the write-buffer manager's `GetCheckpoint`
answer for the node's channel: an error (channel removed) or the pair
(position, needs-update flag). `updateChanCPInterval` is the configured
update interval. -/
def Operate (wb : Except Unit (MsgPosition × Bool)) (updateChanCPInterval : Int)
    (st : TTNodeState) (msg : FlowGraphMsg) : TTNodeState × OperateResult :=
  let curTs := parseTS msg.timeRange.timestampMax
  if IsCloseMsg msg then
    if msg.endPositions.length > 0 then
      match wb with
      | .error _ => (st, ⟨[], none, true⟩)
      | .ok (channelPos, _) =>
        (st, ⟨[msg], some (updateChannelCP channelPos curTs), false⟩)
    else (st, ⟨[msg], none, false⟩)
  else
    match wb with
    | .error _ => (st, ⟨[], none, true⟩)
    | .ok (channelPos, needUpdate) =>
      if needUpdate ∨ curTs - st.lastUpdateTime ≥ updateChanCPInterval then
        (st, ⟨[], some (updateChannelCP channelPos curTs), false⟩)
      else (st, ⟨[], none, false⟩)

/-- The node configuration consumed by `newTTNode`. -/
structure NodeConfig where
  vChannelName : String
deriving DecidableEq, Repr

/-- `newTTNode`: `lastUpdateTime` is initialized to the zero time. -/
def newTTNode (config : NodeConfig) : TTNodeState := ⟨config.vChannelName, 0⟩

/-- Claim C6: on a non-close tick whose checkpoint query succeeds, an update
is issued if and only if the needs-update flag is set or the elapsed time
since `lastUpdateTime` reaches the update interval, and in either case the
stage sends nothing downstream. -/
theorem operate_tick_update_iff (st : TTNodeState) (interval : Int)
    (pos : MsgPosition) (needUpdate : Bool) (msg : FlowGraphMsg)
    (hnc : IsCloseMsg msg = false) :
    ((Operate (.ok (pos, needUpdate)) interval st msg).2.update.isSome ↔
      (needUpdate = true ∨
        parseTS msg.timeRange.timestampMax - st.lastUpdateTime ≥ interval))
    ∧ (Operate (.ok (pos, needUpdate)) interval st msg).2.output = [] := by
  by_cases hcond : (needUpdate = true ∨
      parseTS msg.timeRange.timestampMax - st.lastUpdateTime ≥ interval)
  · simp [Operate, hnc, hcond]
  · simp [Operate, hnc, hcond]

/-- A non-close tick message whose hybrid timestamp has physical part 20. -/
def msgTick : FlowGraphMsg := ⟨⟨0, 5242880⟩, [], false⟩

/-- A close message with a non-empty end-position list and physical part 20. -/
def msgClose : FlowGraphMsg := ⟨⟨0, 5242880⟩, [posA], true⟩

/-- A close message with an empty end-position list. -/
def msgCloseEmpty : FlowGraphMsg := ⟨⟨0, 5242880⟩, [], true⟩

/-- Witness for C6: with the flag clear, zero `lastUpdateTime`, interval 10
and current time 20, an update is issued and nothing goes downstream. -/
theorem operate_tick_update_iff_instance :
    (Operate (.ok (posA, false)) 10 ⟨"ch1", 0⟩ msgTick).2.update.isSome
    ∧ (Operate (.ok (posA, false)) 10 ⟨"ch1", 0⟩ msgTick).2.output = [] :=
  ⟨(operate_tick_update_iff ⟨"ch1", 0⟩ 10 posA false msgTick rfl).1.mpr
      (Or.inr (by decide)),
   (operate_tick_update_iff ⟨"ch1", 0⟩ 10 posA false msgTick rfl).2⟩

/-- Claim C7: on a close message with a non-empty end-position list whose
checkpoint query succeeds, a forced update for the queried position is
issued — no interval condition is consulted (the conclusion holds for every
interval and every `lastUpdateTime`) — and the close message is propagated;
with an empty end-position list the close message is propagated unchanged
with no update. -/
theorem operate_close_forced_update (st : TTNodeState) (interval : Int)
    (msg : FlowGraphMsg) (hc : IsCloseMsg msg = true) :
    (∀ pos needUpdate, msg.endPositions ≠ [] →
      Operate (.ok (pos, needUpdate)) interval st msg =
        (st, ⟨[msg],
          some (updateChannelCP pos (parseTS msg.timeRange.timestampMax)),
          false⟩))
    ∧ (msg.endPositions = [] → ∀ wb,
        Operate wb interval st msg = (st, ⟨[msg], none, false⟩)) := by
  constructor
  · intro pos needUpdate hne
    have hlen : 0 < msg.endPositions.length := List.length_pos.mpr hne
    simp [Operate, hc, hlen]
  · intro hempty wb
    simp [Operate, hc, hempty]

/-- Witness for C7: a close message with one end position forces an update
at interval 1000 (not yet elapsed: `lastUpdateTime = 15`, `curTs = 20`),
and the empty-end-positions close message passes through untouched. -/
theorem operate_close_forced_update_instance :
    Operate (.ok (posB, false)) 1000 ⟨"ch1", 15⟩ msgClose =
      (⟨"ch1", 15⟩, ⟨[msgClose], some (updateChannelCP posB 20), false⟩)
    ∧ Operate (.error ()) 1000 ⟨"ch1", 15⟩ msgCloseEmpty =
      (⟨"ch1", 15⟩, ⟨[msgCloseEmpty], none, false⟩) :=
  ⟨(operate_close_forced_update ⟨"ch1", 15⟩ 1000 msgClose rfl).1 posB false
      (by decide),
   (operate_close_forced_update ⟨"ch1", 15⟩ 1000 msgCloseEmpty rfl).2 rfl
      (.error ())⟩

/-- Claim C8: whenever the checkpoint query for the channel returns an error
(the channel-removed condition) — on the steady-state path or on the close
path that consults it — `Operate` logs the condition and returns an empty
output with no update, rather than failing (it returns normally). -/
theorem operate_channel_removed_drops (st : TTNodeState) (interval : Int)
    (msg : FlowGraphMsg)
    (h : IsCloseMsg msg = false ∨ msg.endPositions ≠ []) :
    Operate (.error ()) interval st msg = (st, ⟨[], none, true⟩) := by
  by_cases hc : IsCloseMsg msg = true
  · have hne : msg.endPositions ≠ [] := by
      rcases h with h | h
      · rw [hc] at h; cases h
      · exact h
    have hlen : 0 < msg.endPositions.length := List.length_pos.mpr hne
    simp [Operate, hc, hlen]
  · simp [Operate, hc]

/-- Witness for C8 on both paths: a steady-state tick and a close message
with end positions are both dropped when the channel is removed. -/
theorem operate_channel_removed_drops_instance :
    Operate (.error ()) 10 ⟨"ch1", 0⟩ msgTick = (⟨"ch1", 0⟩, ⟨[], none, true⟩)
    ∧ Operate (.error ()) 10 ⟨"ch1", 0⟩ msgClose =
        (⟨"ch1", 0⟩, ⟨[], none, true⟩) :=
  ⟨operate_channel_removed_drops ⟨"ch1", 0⟩ 10 msgTick (Or.inl rfl),
   operate_channel_removed_drops ⟨"ch1", 0⟩ 10 msgClose (Or.inr (by decide))⟩

/-- Claim C9: `lastUpdateTime` starts at the zero time, so the very first
tick (whose current time reaches the interval) triggers an update;
`Operate` itself never changes the node state — `lastUpdateTime` is stored
to `curTs` only by the success callback of the checkpoint update. -/
theorem ttNode_lastUpdateTime_discipline :
    (∀ config, (newTTNode config).lastUpdateTime = 0)
    ∧ (∀ wb interval st msg, (Operate wb interval st msg).1 = st)
    ∧ (∀ call st, (updateChannelCPCallback call st).1.lastUpdateTime = call.curTs)
    ∧ (∀ config interval pos needUpdate msg, IsCloseMsg msg = false →
        interval ≤ parseTS msg.timeRange.timestampMax →
        (Operate (.ok (pos, needUpdate)) interval (newTTNode config)
          msg).2.update.isSome) := by
  refine ⟨fun _ => rfl, ?_, fun _ _ => rfl, ?_⟩
  · intro wb interval st msg
    rcases wb with _ | ⟨pos, needUpdate⟩
    · by_cases hc : IsCloseMsg msg = true
      · by_cases hlen : 0 < msg.endPositions.length
        · simp [Operate, hc, hlen]
        · simp [Operate, hc, hlen]
      · simp [Operate, hc]
    · by_cases hc : IsCloseMsg msg = true
      · by_cases hlen : 0 < msg.endPositions.length
        · simp [Operate, hc, hlen]
        · simp [Operate, hc, hlen]
      · by_cases hcond : (needUpdate = true ∨
            parseTS msg.timeRange.timestampMax - st.lastUpdateTime ≥ interval)
        · simp [Operate, hc, hcond]
        · simp [Operate, hc, hcond]
  · intro config interval pos needUpdate msg hnc hfirst
    have h2 := (operate_tick_update_iff (newTTNode config) interval pos
      needUpdate msg hnc).1.mpr
      (Or.inr (by simpa [newTTNode] using hfirst))
    exact h2

/-- Witness for C9: zero initialization, a frame-preserving tick, the
callback storing `curTs`, and the first tick triggering at interval 10. -/
theorem ttNode_lastUpdateTime_discipline_instance :
    (newTTNode ⟨"ch1"⟩).lastUpdateTime = 0
    ∧ (Operate (.ok (posA, false)) 10 ⟨"ch1", 3⟩ msgTick).1 = ⟨"ch1", 3⟩
    ∧ (updateChannelCPCallback ⟨posA, 20⟩ ⟨"ch1", 3⟩).1.lastUpdateTime = 20
    ∧ (Operate (.ok (posA, false)) 10 (newTTNode ⟨"ch1"⟩)
        msgTick).2.update.isSome :=
  ⟨ttNode_lastUpdateTime_discipline.1 ⟨"ch1"⟩,
   ttNode_lastUpdateTime_discipline.2.1 (.ok (posA, false)) 10 ⟨"ch1", 3⟩ msgTick,
   ttNode_lastUpdateTime_discipline.2.2.1 ⟨posA, 20⟩ ⟨"ch1", 3⟩,
   ttNode_lastUpdateTime_discipline.2.2.2 ⟨"ch1"⟩ 10 posA false msgTick rfl
     (by decide)⟩

end Milvus
